import Mathlib

/-!
# wandio: pipeline builder, configuration parsing and the Keystone helper

A shallow embedding of `wandio.c` (configuration parsing, the read and write
pipeline builders, `wandio_tell` / `wandio_seek`) and of
`lib/swift-keystone.c` (`build_auth_request_payload`, `keystone_authenticate`),
followed by the theorems about them.

Conventions of the embedding.
* A C string is the list of its characters before the terminating NUL; each
  `Char` stands for one `char`.
* `unsigned int` values are naturals below `2 ^ 32`; a store of an `int` into an
  `unsigned int` reduces modulo `2 ^ 32`.
* A pointer that may be `NULL` is an `Option`.
* Preprocessor switches (`HAVE_LIBZ`, `HAVE_LIBBZ2`, `HAVE_LIBLZO2`, `NDEBUG`)
  are the fields of `BuildConfig`.
-/

namespace Wandio

/-! ## Process-wide configuration (`wandio.c`, lines 54-58) -/

/-- The three configuration globals that `do_option` assigns:
`int keep_stats`, `unsigned int use_threads`, `unsigned int max_buffers`. -/
structure Globals where
  keep_stats : Int
  use_threads : Nat
  max_buffers : Nat
deriving DecidableEq, Repr

/-- Number of values of an `unsigned int`. -/
def UINT_RANGE : Nat := 2 ^ 32

/-- Conversion of an `int` to `unsigned int`. -/
def to_unsigned (n : Int) : Nat := (n % (UINT_RANGE : Int)).toNat

/-- The initialisers of the globals: `keep_stats = 0`, `use_threads = -1`
(stored in an `unsigned int`), `max_buffers = 50`. -/
def initial_globals : Globals :=
  { keep_stats := 0, use_threads := to_unsigned (-1), max_buffers := 50 }

/-! ## The C library pieces used by `do_option` -/

/-- The C library `isspace` in the "C" locale. -/
def isspace (c : Char) : Bool :=
  c = ' ' || c = '\t' || c = '\n' || c = Char.ofNat 11 || c = Char.ofNat 12 || c = '\r'

/-- The C library `isdigit`. -/
def isdigit (c : Char) : Bool := decide ('0' ≤ c) && decide (c ≤ '9')

/-- Value of a run of decimal digits, most significant first. -/
def digits_value (ds : List Char) : Nat :=
  ds.foldl (fun acc d => 10 * acc + (d.toNat - 48)) 0

/-- The C library `atoi`: skip leading white space, read an optional sign, then
the longest run of decimal digits; `0` when there is no digit. The value is the
mathematical one (the C function is undefined outside the range of `int`). -/
def atoi (s : List Char) : Int :=
  match s.dropWhile isspace with
  | '-' :: rest => - (digits_value (rest.takeWhile isdigit) : Int)
  | '+' :: rest => (digits_value (rest.takeWhile isdigit) : Int)
  | rest => (digits_value (rest.takeWhile isdigit) : Int)

/-- The test `strncmp(option, p, n) == 0` with `n` the length of the literal `p`. -/
def strncmp_eq (option p : List Char) : Bool := p.isPrefixOf option

/-! ## `do_option` and `parse_env` (`wandio.c`, lines 70-114) -/

/-- `do_option`: the effect of one option on the globals. The last branch
only prints "Unknown libtraceio debug option" to `stderr` and assigns nothing. -/
def do_option (g : Globals) (option : List Char) : Globals :=
  if option = [] then g
  else if option = "stats".toList then { g with keep_stats := 1 }
  else if option = "nothreads".toList then { g with use_threads := 0 }
  else if strncmp_eq option "threads=".toList then
    { g with use_threads := to_unsigned (atoi (option.drop 8)) }
  else if strncmp_eq option "buffers=".toList then
    { g with max_buffers := to_unsigned (atoi (option.drop 8)) }
  else g

/-- `sizeof(option)` for `char option[1024]`. -/
def OPTION_SIZE : Nat := 1024

/-- What `parse_env` has done so far: the globals, the indices of `option[]`
it has stored to (in order), the arguments it has passed to `do_option` (in
order), and, once the loop has ended, the input it has not read. -/
structure ParseState where
  g : Globals
  writes : List Nat
  opts : List (List Char)
  unread : List Char
deriving DecidableEq, Repr

/-- A store through `op`, at index `i` of `option[]`. -/
def ParseState.store (st : ParseState) (i : Nat) : ParseState :=
  { st with writes := st.writes ++ [i] }

/-- A call `do_option(option)`. -/
def ParseState.call (st : ParseState) (option : List Char) : ParseState :=
  { st with g := do_option st.g option, opts := st.opts ++ [option] }

/-- The statements `*op = 0; do_option(option);`, where `option` holds the
characters stored at indices `0 .. op-1` (none of them NUL, so they are the
string `do_option` sees). The store is recorded also when `op` is
`option + 1024`, one past the array; the model then goes on as the machine does
when that byte is writable. -/
def terminate_and_call (st : ParseState) (option : List Char) : ParseState :=
  (st.store option.length).call option

/-- The `for` loop of `parse_env` followed by the two statements after it.
`ip` is the rest of the input, `option` the characters stored since `op` was
last reset (so `op = option + option.length`). The loop ends at the end of the
input or when `op` has reached `option + sizeof(option)`. -/
def parse_loop : List Char → List Char → ParseState → ParseState
  | [], option, st => terminate_and_call st option
  | c :: ip, option, st =>
    if option.length < OPTION_SIZE then
      if c = ',' then parse_loop ip [] (terminate_and_call st option)
      else parse_loop ip (option ++ [c]) (st.store option.length)
    else { terminate_and_call st option with unread := c :: ip }

/-- `parse_env`, run on globals `g` when `getenv("LIBTRACEIO")` is `str`. -/
def parse_env (g : Globals) (str : Option (List Char)) : ParseState :=
  match str with
  | none => { g := g, writes := [], opts := [], unread := [] }
  | some s => parse_loop s [] { g := g, writes := [], opts := [], unread := [] }

/-! ## Stages and the outside world of the pipeline builders -/

/-- The preprocessor switches the two builders depend on. -/
structure BuildConfig where
  HAVE_LIBZ : Bool
  HAVE_LIBBZ2 : Bool
  HAVE_LIBLZO2 : Bool
  NDEBUG : Bool
deriving DecidableEq, Repr

/-- The kinds of stage a pipeline is made of. -/
inductive Stage
  | stdio
  | peek
  | zlib
  | bz
  | lzo
  | thread
deriving DecidableEq, Repr

/-- A read pipeline (`io_t *`, not NULL): a stage and the stage it wraps. -/
inductive io_t
  | stdio (filename : List Char)
  | peek (child : io_t)
  | zlib (child : io_t)
  | bz (child : io_t)
  | thread (child : io_t)
deriving DecidableEq, Repr

/-- The stages of a read pipeline, innermost (raw) first, outermost last. -/
def io_t.stages : io_t → List Stage
  | .stdio _ => [Stage.stdio]
  | .peek c => c.stages ++ [Stage.peek]
  | .zlib c => c.stages ++ [Stage.zlib]
  | .bz c => c.stages ++ [Stage.bz]
  | .thread c => c.stages ++ [Stage.thread]

/-- A write pipeline (`iow_t *`, not NULL). -/
inductive iow_t
  | stdio (filename : List Char) (flags : Int)
  | zlib (child : iow_t) (level : Int)
  | lzo (child : iow_t) (level : Int)
  | bz (child : iow_t) (level : Int)
  | thread (child : iow_t)
deriving DecidableEq, Repr

/-- The stages of a write pipeline, innermost (raw) first, outermost last. -/
def iow_t.stages : iow_t → List Stage
  | .stdio _ _ => [Stage.stdio]
  | .zlib c _ => c.stages ++ [Stage.zlib]
  | .lzo c _ => c.stages ++ [Stage.lzo]
  | .bz c _ => c.stages ++ [Stage.bz]
  | .thread c => c.stages ++ [Stage.thread]

/-- Whether a stage is a codec (compression or decompression) stage. -/
def Stage.is_codec : Stage → Bool
  | .zlib => true
  | .bz => true
  | .lzo => true
  | _ => false

/-- Modelled from the spec: the `WANDIO_COMPRESS_*` enumeration of `wandio.h`
(not among the sources): the four formats of the spec's CompressionFormat and
`WANDIO_COMPRESS_MASK`, which the second assertion of `wandio_wcreate` names. -/
inductive compress_type_t
  | WANDIO_COMPRESS_NONE
  | WANDIO_COMPRESS_ZLIB
  | WANDIO_COMPRESS_BZ2
  | WANDIO_COMPRESS_LZO
  | WANDIO_COMPRESS_MASK
deriving DecidableEq, Repr

/-- What the outside world answers during one call of a builder: the value of
the environment variable, whether the raw file opens, and what the first
`wandio_peek` returns (`peek_len`) and leaves in `buffer` (`peek_buffer`, one
byte value per index). -/
structure Env where
  LIBTRACEIO : Option (List Char)
  stdio_open_ok : List Char → Bool
  peek_len : Int
  peek_buffer : Nat → Nat
  stdio_wopen_ok : List Char → Int → Bool

/-- The calls a builder makes to the rest of the library, and `abort` for a
failed `assert`. -/
inductive Call
  | getenv
  | stdio_open (filename : List Char)
  | peek_open
  | wandio_peek
  | zlib_open
  | bz_open
  | thread_open
  | stdio_wopen (filename : List Char) (flags : Int)
  | zlib_wopen (level : Int)
  | lzo_wopen (level : Int)
  | bz_wopen (level : Int)
  | thread_wopen
  | abort
deriving DecidableEq, Repr

/-- How a builder ends: a failed `assert` aborts the process, otherwise it
returns a pointer (`none` is NULL). -/
inductive Ret (α : Type)
  | aborted
  | returned (v : Option α)
deriving DecidableEq, Repr

/-- The result of one call of a builder: the globals afterwards, the calls it
made in order, and how it ended. -/
structure Outcome (α : Type) where
  g : Globals
  calls : List Call
  ret : Ret α

/-- Modelled from the spec: `stdio_open` (the raw-file stage of `ior-stdio.c`,
not among the sources) yields the raw stage, or no stage when the file cannot
be opened. -/
def stdio_open (env : Env) (filename : List Char) : Option io_t :=
  if env.stdio_open_ok filename then some (io_t.stdio filename) else none

/-- Modelled from the spec: `peek_open` (`ior-peek.c`, not among the sources)
wraps one readable stage in a lookahead stage; open-for-read yields no stream
when the raw stage cannot be opened, so given no stage it yields none. -/
def peek_open (child : Option io_t) : Option io_t := child.map io_t.peek

/-- Modelled from the spec: `zlib_open` (`ior-zlib.c`, not among the sources)
wraps a stage in the gzip decoding stage. -/
def zlib_open (child : Option io_t) : Option io_t := child.map io_t.zlib

/-- Modelled from the spec: `bz_open` (`ior-bzip.c`, not among the sources)
wraps a stage in the bzip2 decoding stage. -/
def bz_open (child : Option io_t) : Option io_t := child.map io_t.bz

/-- Modelled from the spec: `thread_open` (`ior-thread.c`, not among the
sources) wraps a stage in the threaded buffering stage. -/
def thread_open (child : Option io_t) : Option io_t := child.map io_t.thread

/-- Modelled from the spec: `stdio_wopen` (`iow-stdio.c`, not among the
sources) yields the raw write stage, or no stage when the file cannot be
opened with these flags. -/
def stdio_wopen (env : Env) (filename : List Char) (flags : Int) : Option iow_t :=
  if env.stdio_wopen_ok filename flags then some (iow_t.stdio filename flags) else none

/-- Modelled from the spec: `zlib_wopen` (`iow-zlib.c`, not among the sources)
wraps a sink in the gzip encoding stage at the given level. -/
def zlib_wopen (child : Option iow_t) (level : Int) : Option iow_t :=
  child.map (fun c => iow_t.zlib c level)

/-- Modelled from the spec: `lzo_wopen` (`iow-lzo.c`, not among the sources)
wraps a sink in the LZO encoding stage at the given level. -/
def lzo_wopen (child : Option iow_t) (level : Int) : Option iow_t :=
  child.map (fun c => iow_t.lzo c level)

/-- Modelled from the spec: `bz_wopen` (`iow-bzip.c`, not among the sources)
wraps a sink in the bzip2 encoding stage at the given level. -/
def bz_wopen (child : Option iow_t) (level : Int) : Option iow_t :=
  child.map (fun c => iow_t.bz c level)

/-- Modelled from the spec: `thread_wopen` (`iow-thread.c`, not among the
sources) wraps a sink in the threaded buffering stage. -/
def thread_wopen (child : Option iow_t) : Option iow_t := child.map iow_t.thread

/-! ## `wandio_create` (`wandio.c`, lines 127-173) -/

/-- The statement `if (cond) io = opener(io);` on the pair of the current `io`
and the calls made so far. -/
def open_if {α : Type} (cond : Bool) (opener : Option α → Option α) (c : Call)
    (s : Option α × List Call) : Option α × List Call :=
  if cond then (opener s.1, s.2 ++ [c]) else s

/-- The three detection statements of `wandio_create` (lines 143-161), run on
the peek-capable pipeline `s.1` with `len` and `buffer` as the peek left them.
The character constants are octal 037 = 0x1f, 0213 = 0x8b, 0235 = 0x9d, and
B, Z, h = 0x42, 0x5a, 0x68. Each block is present only under its `#if`. -/
def detect (cfg : BuildConfig) (len : Int) (buffer : Nat → Nat)
    (s : Option io_t × List Call) : Option io_t × List Call :=
  let s1 := open_if (cfg.HAVE_LIBZ && (decide (2 ≤ len) && buffer 0 == 0x1f && buffer 1 == 0x8b))
    zlib_open Call.zlib_open s
  let s2 := open_if (cfg.HAVE_LIBZ && (decide (2 ≤ len) && buffer 0 == 0x1f && buffer 1 == 0x9d))
    zlib_open Call.zlib_open s1
  open_if (cfg.HAVE_LIBBZ2 &&
      (decide (3 ≤ len) && buffer 0 == 0x42 && buffer 1 == 0x5a && buffer 2 == 0x68))
    bz_open Call.bz_open s2

/-- `wandio_create(filename)`, run on globals `g`. -/
def wandio_create (cfg : BuildConfig) (env : Env) (g : Globals) (filename : List Char) :
    Outcome io_t :=
  let g1 := (parse_env g env.LIBTRACEIO).g
  let io := peek_open (stdio_open env filename)
  let calls := [Call.getenv, Call.stdio_open filename, Call.peek_open]
  match io with
  | none => { g := g1, calls := calls, ret := Ret.returned none }
  | some _ =>
    let s := detect cfg env.peek_len env.peek_buffer (io, calls ++ [Call.wandio_peek])
    let t := open_if (g1.use_threads != 0) thread_open Call.thread_open s
    { g := g1, calls := t.2 ++ [Call.peek_open], ret := Ret.returned (peek_open t.1) }

/-! ## `wandio_wcreate` (`wandio.c`, lines 225-262) -/

/-- The `else if` branches for LZO and bzip2 (lines 245-256), each present only
under its `#if`. -/
def else_if_chain (cfg : BuildConfig) (compress_type : compress_type_t)
    (compression_level : Int) (s : Option iow_t × List Call) : Option iow_t × List Call :=
  if cfg.HAVE_LIBLZO2 && (compression_level != 0 &&
      compress_type == compress_type_t.WANDIO_COMPRESS_LZO) then
    (lzo_wopen s.1 compression_level, s.2 ++ [Call.lzo_wopen compression_level])
  else if cfg.HAVE_LIBBZ2 && (compression_level != 0 &&
      compress_type == compress_type_t.WANDIO_COMPRESS_BZ2) then
    (bz_wopen s.1 compression_level, s.2 ++ [Call.bz_wopen compression_level])
  else s

/-- The codec selection of `wandio_wcreate` (lines 239-256) on a sink that is
not NULL. With `HAVE_LIBZ` the chain starts at the zlib `if`. Without it the
first surviving `else if` continues the statement `if (!iow) return NULL;`, so
the chain runs exactly when `iow` is not NULL, which is the case here. -/
def select_codec (cfg : BuildConfig) (compress_type : compress_type_t)
    (compression_level : Int) (s : Option iow_t × List Call) : Option iow_t × List Call :=
  if cfg.HAVE_LIBZ then
    if compression_level != 0 && compress_type == compress_type_t.WANDIO_COMPRESS_ZLIB then
      (zlib_wopen s.1 compression_level, s.2 ++ [Call.zlib_wopen compression_level])
    else else_if_chain cfg compress_type compression_level s
  else else_if_chain cfg compress_type compression_level s

/-- `wandio_wcreate(filename, compress_type, compression_level, flags)`, run
on globals `g`. The two `assert`s abort the process unless `NDEBUG` is set. -/
def wandio_wcreate (cfg : BuildConfig) (env : Env) (g : Globals) (filename : List Char)
    (compress_type : compress_type_t) (compression_level : Int) (flags : Int) :
    Outcome iow_t :=
  let g1 := (parse_env g env.LIBTRACEIO).g
  if !cfg.NDEBUG && !(decide (0 ≤ compression_level) && decide (compression_level ≤ 9)) then
    { g := g1, calls := [Call.getenv, Call.abort], ret := Ret.aborted }
  else if !cfg.NDEBUG && compress_type == compress_type_t.WANDIO_COMPRESS_MASK then
    { g := g1, calls := [Call.getenv, Call.abort], ret := Ret.aborted }
  else
    let iow := stdio_wopen env filename flags
    let calls := [Call.getenv, Call.stdio_wopen filename flags]
    match iow with
    | none => { g := g1, calls := calls, ret := Ret.returned none }
    | some _ =>
      let s := select_codec cfg compress_type compression_level (iow, calls)
      if g1.use_threads != 0 then
        { g := g1, calls := s.2 ++ [Call.thread_wopen], ret := Ret.returned (thread_wopen s.1) }
      else { g := g1, calls := s.2, ret := Ret.returned s.1 }

/-! ## `wandio_tell` and `wandio_seek` (`wandio.c`, lines 175-191) -/

/-- The process state the stream operations act on: `errno`, and everything
the stages own (file positions, buffers). -/
structure Proc (σ : Type) where
  errno : Int
  stage : σ

/-- The function-pointer table `io->source`, restricted to the two members
used here; `none` is a NULL member. A stage operation is any function of the
process state that returns an `off_t`. -/
structure source_t (σ : Type) where
  tell : Option (Proc σ → Int × Proc σ)
  seek : Option (Int → Int → Proc σ → Int × Proc σ)

/-- `wandio_tell(io)`, with `ENOSYS` the value of that macro of `errno.h`. -/
def wandio_tell {σ : Type} (ENOSYS : Int) (source : source_t σ) (p : Proc σ) :
    Int × Proc σ :=
  match source.tell with
  | none => (-1, { p with errno := -ENOSYS })
  | some tell => tell p

/-- `wandio_seek(io, offset, whence)`. -/
def wandio_seek {σ : Type} (ENOSYS : Int) (source : source_t σ) (offset whence : Int)
    (p : Proc σ) : Int × Proc σ :=
  match source.seek with
  | none => (-1, { p with errno := -ENOSYS })
  | some seek => seek offset whence p

/-! ## Reference descriptions the theorems compare the code with -/

/-- The gzip-compatible signatures: at least 2 bytes peeked, and they are
`1F 8B` or `1F 9D`. -/
def gzip_magic (len : Int) (buffer : Nat → Nat) : Prop :=
  2 ≤ len ∧ buffer 0 = 0x1f ∧ (buffer 1 = 0x8b ∨ buffer 1 = 0x9d)

/-- The bzip2 signature: at least 3 bytes peeked, and they are `42 5A 68`. -/
def bzip2_magic (len : Int) (buffer : Nat → Nat) : Prop :=
  3 ≤ len ∧ buffer 0 = 0x42 ∧ buffer 1 = 0x5a ∧ buffer 2 = 0x68

instance (len : Int) (buffer : Nat → Nat) : Decidable (gzip_magic len buffer) := by
  unfold gzip_magic; infer_instance

instance (len : Int) (buffer : Nat → Nat) : Decidable (bzip2_magic len buffer) := by
  unfold bzip2_magic; infer_instance

/-- The decompression stages detection is described to insert, under the build
configuration `cfg`: none or one. -/
def detected_stages (cfg : BuildConfig) (len : Int) (buffer : Nat → Nat) : List Stage :=
  if cfg.HAVE_LIBZ = true ∧ gzip_magic len buffer then [Stage.zlib]
  else if cfg.HAVE_LIBBZ2 = true ∧ bzip2_magic len buffer then [Stage.bz]
  else []

/-- The threaded buffering stage, present when the thread-count request is not 0. -/
def thread_stages (use_threads : Nat) : List Stage :=
  if use_threads = 0 then [] else [Stage.thread]

/-- The codec stages of a list of stages. -/
def codec_stages (l : List Stage) : List Stage := l.filter Stage.is_codec

/-- The codec stage that matches a requested format (none for
`WANDIO_COMPRESS_NONE`). -/
def matching_stage : compress_type_t → List Stage
  | .WANDIO_COMPRESS_ZLIB => [Stage.zlib]
  | .WANDIO_COMPRESS_BZ2 => [Stage.bz]
  | .WANDIO_COMPRESS_LZO => [Stage.lzo]
  | _ => []

/-- Whether the codec of a requested format is compiled in. -/
def compiled_in (cfg : BuildConfig) : compress_type_t → Bool
  | .WANDIO_COMPRESS_ZLIB => cfg.HAVE_LIBZ
  | .WANDIO_COMPRESS_BZ2 => cfg.HAVE_LIBBZ2
  | .WANDIO_COMPRESS_LZO => cfg.HAVE_LIBLZO2
  | _ => false

/-- The codec stages the write pipeline is described to contain: the one
matching the format when the level is not 0 and the codec is compiled in, none
otherwise. -/
def requested_stages (cfg : BuildConfig) (compress_type : compress_type_t)
    (compression_level : Int) : List Stage :=
  if compression_level ≠ 0 ∧ compiled_in cfg compress_type = true then
    matching_stage compress_type
  else []

/-- The sink the write pipeline is described to be: the raw stage, wrapped in
the codec stage matching the format (at the requested level) when the level is
not 0 and that codec is compiled in, then wrapped in the threaded stage when the
thread-count request is not 0. -/
def described_sink (cfg : BuildConfig) (filename : List Char) (flags : Int)
    (compress_type : compress_type_t) (compression_level : Int) (use_threads : Nat) : iow_t :=
  let raw := iow_t.stdio filename flags
  let coded :=
    if compression_level ≠ 0 ∧ compiled_in cfg compress_type = true then
      match compress_type with
      | .WANDIO_COMPRESS_ZLIB => iow_t.zlib raw compression_level
      | .WANDIO_COMPRESS_BZ2 => iow_t.bz raw compression_level
      | .WANDIO_COMPRESS_LZO => iow_t.lzo raw compression_level
      | _ => raw
    else raw
  if use_threads = 0 then coded else iow_t.thread coded

/-- The comma-separated tokens of a configuration string. -/
def tokens (s : List Char) : List (List Char) := s.splitOn ','

/-- The arguments `parse_env` passes to `do_option`, told on the tokens: each
token in turn while it is shorter than the buffer; the first that is not is cut
to its first 1024 bytes and is the last one passed. -/
def applied : List (List Char) → List (List Char)
  | [] => []
  | t :: ts => if t.length < OPTION_SIZE then t :: applied ts else [t.take OPTION_SIZE]

/-- The indices of `option[]` stored to while the tokens are read, when `start`
bytes of the first token are already in the buffer: one store per byte and one
for the terminator, up to and including index 1024 for a token that does not
fit. -/
def stores (start : Nat) : List (List Char) → List Nat
  | [] => []
  | t :: ts =>
    if start + t.length < OPTION_SIZE then List.range' start (t.length + 1) ++ stores 0 ts
    else List.range' start (OPTION_SIZE - start + 1)

/-- A decimal integer as the configuration grammar writes `<n>`: an optional
minus sign followed by one or more decimal digits. -/
def decimal_integer (s : List Char) : Option Int :=
  match s with
  | '-' :: ds =>
    if ds ≠ [] ∧ ds.all isdigit = true then some (-(digits_value ds : Int)) else none
  | ds => if ds ≠ [] ∧ ds.all isdigit = true then some (digits_value ds : Int) else none

/-- The `<n>` of `threads=<n>` and `buffers=<n>`: a decimal integer in the range
of `int`. -/
def int_numeral (s : List Char) : Option Int :=
  match decimal_integer s with
  | some n => if -(2 ^ 31 : Int) ≤ n ∧ n ≤ 2 ^ 31 - 1 then some n else none
  | none => none

/-- The effect of one token as the configuration grammar words it: `stats`
sets the stats flag, `nothreads` sets the thread-count request to 0,
`threads=<n>` and `buffers=<n>` with `<n>` a decimal integer in `int` range set
the thread-count request and the pool cap to `n` (as stored in an
`unsigned int`); the empty token and every token of no such form change
nothing. -/
def claimed_token_effect (g : Globals) (tok : List Char) : Globals :=
  if tok = "stats".toList then { g with keep_stats := 1 }
  else if tok = "nothreads".toList then { g with use_threads := 0 }
  else if "threads=".toList.isPrefixOf tok then
    match int_numeral (tok.drop 8) with
    | some n => { g with use_threads := to_unsigned n }
    | none => g
  else if "buffers=".toList.isPrefixOf tok then
    match int_numeral (tok.drop 8) with
    | some n => { g with max_buffers := to_unsigned n }
    | none => g
  else g

/-- A function on the globals that, field by field, either stores a fixed
value or leaves the field as it is. -/
def FieldWise (f : Globals → Globals) : Prop :=
  ∃ (a : Option Int) (b c : Option Nat), ∀ g : Globals,
    f g = { keep_stats := a.getD g.keep_stats, use_threads := b.getD g.use_threads,
            max_buffers := c.getD g.max_buffers }

/-- One pipeline-open call, with its arguments, the build it was compiled in
and the world it runs in. -/
inductive OpenCall
  | create (cfg : BuildConfig) (env : Env) (filename : List Char)
  | wcreate (cfg : BuildConfig) (env : Env) (filename : List Char)
      (compress_type : compress_type_t) (compression_level flags : Int)

/-- The globals an open call leaves when it is made on globals `g` while the
environment variable holds `str`. -/
def OpenCall.run (str : Option (List Char)) (g : Globals) : OpenCall → Globals
  | .create cfg env filename =>
    (wandio_create cfg { env with LIBTRACEIO := str } g filename).g
  | .wcreate cfg env filename compress_type compression_level flags =>
    (wandio_wcreate cfg { env with LIBTRACEIO := str } g filename compress_type
      compression_level flags).g

/-- A world for concrete runs: `LIBTRACEIO` is `str`, every raw open succeeds
or fails as `ok` says, and the first peek returns `len` and leaves `bytes` at
the start of the buffer. -/
def sample_env (str : Option (List Char)) (ok : Bool) (len : Int) (bytes : List Nat) : Env :=
  { LIBTRACEIO := str
    stdio_open_ok := fun _ => ok
    peek_len := len
    peek_buffer := fun i => bytes.getD i 0
    stdio_wopen_ok := fun _ _ => ok }

/-- A build with every codec compiled in and assertions enabled. -/
def full_build : BuildConfig :=
  { HAVE_LIBZ := true, HAVE_LIBBZ2 := true, HAVE_LIBLZO2 := true, NDEBUG := false }

end Wandio

/-! ## The Keystone helper (`lib/swift-keystone.c`) -/

namespace Keystone

/-- The credentials structure (declared in `swift-keystone.h`), with the five
members the source uses; `none` is a NULL pointer. -/
structure keystone_auth_creds_t where
  auth_url : Option (List Char)
  username : Option (List Char)
  password : Option (List Char)
  project : Option (List Char)
  domain_id : Option (List Char)
deriving DecidableEq, Repr

/-- The token structure (declared in `swift-keystone.h`), with the two members
the source uses. -/
structure keystone_auth_token_t where
  token : Option (List Char)
  storage_url : Option (List Char)
deriving DecidableEq, Repr

/-- The value `memset(auth, 0, sizeof(*auth))` leaves: both pointers NULL. -/
def zeroed_token : keystone_auth_token_t := { token := none, storage_url := none }

/-- `BUFLEN`. -/
def BUFLEN : Nat := 1024

/-- `AUTH_REQ_TMPL`, one piece per line of the macro. -/
def AUTH_REQ_TMPL : List Char :=
  ("\x7b" ++
   "  \"auth\": \x7b" ++
   "    \"identity\": \x7b" ++
   "      \"methods\": [\"password\"]," ++
   "      \"password\": \x7b" ++
   "        \"user\": \x7b" ++
   "          \"name\": \"%s\"," ++
   "          \"domain\": \x7b \"id\": \"%s\" \x7d," ++
   "          \"password\" \"%s\"" ++
   "        \x7d" ++
   "      \x7d" ++
   "    \x7d" ++
   "  \x7d" ++
   "\x7d").toList

/-- What `%s` prints for an argument: the string, and "(null)" for a NULL
pointer (as the GNU C library does; the C standard leaves it undefined). -/
def percent_s (arg : Option (List Char)) : List Char :=
  match arg with
  | some a => a
  | none => "(null)".toList

/-- The expansion of a format whose only conversions are `%s`. -/
def expand : List Char → List (Option (List Char)) → List Char
  | [], _ => []
  | [c], _ => [c]
  | c :: d :: rest, args =>
    if c = '%' && d = 's' then
      match args with
      | a :: more => percent_s a ++ expand rest more
      | [] => expand rest []
    else c :: expand (d :: rest) args

/-- `INT_MAX`. -/
def INT_MAX : Nat := 2 ^ 31 - 1

/-- The C library `snprintf(buf, buf_len, fmt, ...)`: the bytes left in `buf`
(at most `buf_len - 1` of them, before the NUL) and the `int` returned, which is
the length of the whole expansion, or `-1` when that exceeds `INT_MAX`. -/
def snprintf (buf_len : Nat) (fmt : List Char) (args : List (Option (List Char))) :
    List Char × Int :=
  let out := expand fmt args
  (out.take (buf_len - 1), if out.length ≤ INT_MAX then (out.length : Int) else -1)

/-- Conversion of an `int` to `size_t` (64 bits). -/
def to_size_t (n : Int) : Nat := (n % (2 ^ 64 : Int)).toNat

/-- Conversion of a `size_t` to `int`: the low 32 bits, as two's complement. -/
def to_int (n : Nat) : Int :=
  if n % 2 ^ 32 < 2 ^ 31 then ((n % 2 ^ 32 : Nat) : Int) else ((n % 2 ^ 32 : Nat) : Int) - 2 ^ 32

/-- The value `snprintf` returns in `build_auth_request_payload`, stored in
the `size_t written`. -/
def written (buf_len : Nat) (creds : keystone_auth_creds_t) : Nat :=
  to_size_t (snprintf buf_len AUTH_REQ_TMPL
    [creds.username, creds.domain_id, creds.password]).2

/-- `build_auth_request_payload(buf, buf_len, creds)`: the bytes left in `buf`
and the `int` returned. -/
def build_auth_request_payload (buf_len : Nat) (creds : keystone_auth_creds_t) :
    List Char × Int :=
  let r := snprintf buf_len AUTH_REQ_TMPL [creds.username, creds.domain_id, creds.password]
  let written := to_size_t r.2
  if buf_len ≤ written then (r.1, -1)
  else (r.1, to_int (written + 1))

/-- The payload `build_auth_request_payload` formats for `creds`. -/
def payload (creds : keystone_auth_creds_t) : List Char :=
  expand AUTH_REQ_TMPL [creds.username, creds.domain_id, creds.password]

/-- The outcomes of the curl calls of `keystone_authenticate`: whether
`curl_easy_init` returned a handle, and whether each `curl_easy_setopt`
returned `CURLE_OK`. -/
structure CurlEnv where
  easy_init_ok : Bool
  setopt_verbose_ok : Bool
  setopt_url_ok : Bool
  setopt_post_ok : Bool
deriving DecidableEq, Repr

/-- `keystone_authenticate(creds, auth)`: the `int` returned and the contents
of `*auth` afterwards. Every `goto err` ends in `return -1`. -/
def keystone_authenticate (env : CurlEnv) (creds : keystone_auth_creds_t)
    (_auth : keystone_auth_token_t) : Int × keystone_auth_token_t :=
  let auth := zeroed_token
  if !env.easy_init_ok then (-1, auth)
  else if !env.setopt_verbose_ok || !env.setopt_url_ok || !env.setopt_post_ok then (-1, auth)
  else if (build_auth_request_payload BUFLEN creds).2 != 0 then (-1, auth)
  else (0, auth)

end Keystone

/-! ## Theorems: the Keystone helper -/

namespace Keystone

theorem to_size_t_neg_one : to_size_t (-1) = 2 ^ 64 - 1 := by decide

theorem to_size_t_natCast (n : Nat) (h : n < 2 ^ 64) : to_size_t (n : Int) = n := by
  unfold to_size_t
  omega

theorem build_auth_request_payload_overflow (creds : keystone_auth_creds_t)
    (h : BUFLEN ≤ (payload creds).length) :
    (build_auth_request_payload BUFLEN creds).2 = -1 := by
  simp only [build_auth_request_payload, snprintf, BUFLEN, INT_MAX] at *
  unfold payload at h
  split_ifs with h1 h2 h2
  · rfl
  · exfalso
    rw [to_size_t_natCast _ (by omega)] at h2
    omega
  · rfl
  · exfalso
    rw [to_size_t_neg_one] at h2
    omega

theorem build_auth_request_payload_fits (creds : keystone_auth_creds_t)
    (h : (payload creds).length < BUFLEN) :
    (build_auth_request_payload BUFLEN creds).2 = ((payload creds).length : Int) + 1 := by
  simp only [build_auth_request_payload, snprintf, BUFLEN, INT_MAX] at *
  unfold payload at *
  have h1 : (expand AUTH_REQ_TMPL [creds.username, creds.domain_id, creds.password]).length
      ≤ 2 ^ 31 - 1 := by omega
  rw [if_pos h1, to_size_t_natCast _ (by omega), if_neg (by omega)]
  simp only [to_int]
  split_ifs <;> omega

/-- C10: `keystone_authenticate` returns -1, never 0, for every credentials
value and every outcome of the curl calls, and leaves the token structure
zeroed; the reason is that `build_auth_request_payload` (called with the
1024-byte buffer) returns -1 exactly when the payload does not fit and otherwise
the payload length plus one, which is at least 1, so it never returns 0. -/
theorem keystone_authenticate_never_succeeds (env : CurlEnv)
    (creds : keystone_auth_creds_t) (auth : keystone_auth_token_t) :
    (keystone_authenticate env creds auth).1 = -1 ∧
    (keystone_authenticate env creds auth).1 ≠ 0 ∧
    (keystone_authenticate env creds auth).2 = zeroed_token ∧
    (build_auth_request_payload BUFLEN creds).2 ≠ 0 ∧
    ((build_auth_request_payload BUFLEN creds).2 = -1 ↔ BUFLEN ≤ (payload creds).length) ∧
    ((payload creds).length < BUFLEN →
      (build_auth_request_payload BUFLEN creds).2 = ((payload creds).length : Int) + 1 ∧
      1 ≤ (build_auth_request_payload BUFLEN creds).2) := by
  have hne : (build_auth_request_payload BUFLEN creds).2 ≠ 0 := by
    rcases Nat.lt_or_ge (payload creds).length BUFLEN with h | h
    · rw [build_auth_request_payload_fits creds h]; omega
    · rw [build_auth_request_payload_overflow creds h]; decide
  have hret : (keystone_authenticate env creds auth).1 = -1 := by
    simp only [keystone_authenticate]
    split_ifs with h1 h2 h3
    · rfl
    · rfl
    · rfl
    · exfalso
      simp at h3
      exact hne h3
  have hauth : (keystone_authenticate env creds auth).2 = zeroed_token := by
    simp only [keystone_authenticate]
    split_ifs <;> rfl
  refine ⟨hret, by rw [hret]; decide, hauth, hne, ?_, ?_⟩
  · constructor
    · intro h
      by_contra hlt
      rw [build_auth_request_payload_fits creds (by omega)] at h
      omega
    · exact build_auth_request_payload_overflow creds
  · intro h
    rw [build_auth_request_payload_fits creds h]
    exact ⟨rfl, by omega⟩

end Keystone

/-! ## Theorems: the pipeline builders -/

namespace Wandio

theorem wandio_create_stages (cfg : BuildConfig) (env : Env) (g : Globals)
    (filename : List Char) (hopen : env.stdio_open_ok filename = true) :
    ∃ io, (wandio_create cfg env g filename).ret = Ret.returned (some io) ∧
      io.stages = [Stage.stdio, Stage.peek]
        ++ detected_stages cfg env.peek_len env.peek_buffer
        ++ thread_stages (parse_env g env.LIBTRACEIO).g.use_threads
        ++ [Stage.peek] := by
  simp only [wandio_create, stdio_open, hopen, peek_open, detect, open_if, zlib_open, bz_open,
    thread_open, detected_stages, thread_stages, gzip_magic, bzip2_magic, if_true, Option.map]
  split_ifs <;> simp_all [io_t.stages]

theorem codec_stages_read (d t : List Stage) (hd : ∀ x ∈ d, x.is_codec = true)
    (ht : ∀ x ∈ t, x.is_codec = false) :
    codec_stages ([Stage.stdio, Stage.peek] ++ d ++ t ++ [Stage.peek]) = d := by
  have h1 : List.filter Stage.is_codec d = d := List.filter_eq_self.mpr hd
  have h2 : List.filter Stage.is_codec t = [] :=
    List.filter_eq_nil_iff.mpr (fun x hx => by rw [ht x hx]; decide)
  have h3 : List.filter Stage.is_codec [Stage.stdio, Stage.peek] = [] := by decide
  have h4 : List.filter Stage.is_codec [Stage.peek] = [] := by decide
  simp only [codec_stages, List.filter_append, h1, h2, h3, h4, List.nil_append,
    List.append_nil]

theorem detected_stages_codec (cfg : BuildConfig) (len : Int) (buffer : Nat → Nat) :
    ∀ x ∈ detected_stages cfg len buffer, x.is_codec = true := by
  unfold detected_stages
  split_ifs <;> simp [Stage.is_codec]

theorem thread_stages_not_codec (n : Nat) : ∀ x ∈ thread_stages n, x.is_codec = false := by
  unfold thread_stages
  split_ifs <;> simp [Stage.is_codec]

theorem magic_exclusive (len : Int) (buffer : Nat → Nat) :
    ¬ (gzip_magic len buffer ∧ bzip2_magic len buffer) := by
  rintro ⟨⟨_, h0, _⟩, ⟨_, h0b, _⟩⟩
  omega

/-- C1: with the gzip and bzip2 codecs compiled in and the raw stage open,
`wandio_create` inserts exactly one gzip stage when at least 2 bytes were peeked
and they are 1F 8B or 1F 9D, exactly one bzip2 stage when at least 3 bytes were
peeked and they are 42 5A 68, and no decompression stage for every other peek
result (other prefix, fewer than 2 bytes, failed peek); never more than one;
and the stages chosen are the same for every thread-count setting. -/
theorem wandio_create_autodetect (env : Env) (g : Globals) (filename : List Char)
    (lzo ndebug : Bool) (hopen : env.stdio_open_ok filename = true) :
    ∃ io, (wandio_create ⟨true, true, lzo, ndebug⟩ env g filename).ret
        = Ret.returned (some io) ∧
      (gzip_magic env.peek_len env.peek_buffer → codec_stages io.stages = [Stage.zlib]) ∧
      (bzip2_magic env.peek_len env.peek_buffer → codec_stages io.stages = [Stage.bz]) ∧
      (¬ gzip_magic env.peek_len env.peek_buffer ∧ ¬ bzip2_magic env.peek_len env.peek_buffer →
        codec_stages io.stages = []) ∧
      (env.peek_len < 2 → codec_stages io.stages = []) ∧
      (codec_stages io.stages).length ≤ 1 ∧
      ∀ (g2 : Globals) (str2 : Option (List Char)), ∃ io2,
        (wandio_create ⟨true, true, lzo, ndebug⟩ { env with LIBTRACEIO := str2 } g2 filename).ret
          = Ret.returned (some io2) ∧
        codec_stages io2.stages = codec_stages io.stages := by
  obtain ⟨io, hret, hst⟩ := wandio_create_stages ⟨true, true, lzo, ndebug⟩ env g filename hopen
  have hc : codec_stages io.stages
      = detected_stages ⟨true, true, lzo, ndebug⟩ env.peek_len env.peek_buffer := by
    rw [hst]
    exact codec_stages_read _ _ (detected_stages_codec _ _ _) (thread_stages_not_codec _)
  have hx := magic_exclusive env.peek_len env.peek_buffer
  refine ⟨io, hret, ?_, ?_, ?_, ?_, ?_, ?_⟩
  · intro h
    rw [hc]; simp [detected_stages, h]
  · intro h
    have hg : ¬ gzip_magic env.peek_len env.peek_buffer := fun hg => hx ⟨hg, h⟩
    rw [hc]; simp [detected_stages, h, hg]
  · rintro ⟨h1, h2⟩
    rw [hc]; simp [detected_stages, h1, h2]
  · intro h
    have h1 : ¬ gzip_magic env.peek_len env.peek_buffer := fun hg => by
      have := hg.1; omega
    have h2 : ¬ bzip2_magic env.peek_len env.peek_buffer := fun hb => by
      have := hb.1; omega
    rw [hc]; simp [detected_stages, h1, h2]
  · rw [hc]; unfold detected_stages; split_ifs <;> simp
  · intro g2 str2
    obtain ⟨io2, hret2, hst2⟩ := wandio_create_stages ⟨true, true, lzo, ndebug⟩
      { env with LIBTRACEIO := str2 } g2 filename hopen
    refine ⟨io2, hret2, ?_⟩
    rw [hc, hst2]
    exact codec_stages_read _ _ (detected_stages_codec _ _ _) (thread_stages_not_codec _)

theorem wandio_create_autodetect_witness :
    (sample_env none true 10 [0x1f, 0x8b, 8]).stdio_open_ok "trace.gz".toList = true ∧
    ∃ io, (wandio_create ⟨true, true, false, false⟩ (sample_env none true 10 [0x1f, 0x8b, 8])
        initial_globals "trace.gz".toList).ret = Ret.returned (some io) ∧
      codec_stages io.stages = [Stage.zlib] := by
  refine ⟨rfl, ?_⟩
  obtain ⟨io, h, hz, _⟩ := wandio_create_autodetect (sample_env none true 10 [0x1f, 0x8b, 8])
    initial_globals "trace.gz".toList false false rfl
  exact ⟨io, h, hz (by decide)⟩

/-- C6 (what the code does): on a stream whose stage has no `tell`
(respectively `seek`), `wandio_tell` (respectively `wandio_seek`) returns -1,
runs no stage operation and stores `-ENOSYS`, the negated code, in `errno`,
which equals `ENOSYS` only if that code were 0; on a stream whose stage has the
operation the call is that operation, result and process state alike. -/
theorem wandio_tell_seek_errno {σ : Type} (ENOSYS : Int)
    (tell : Proc σ → Int × Proc σ) (seek : Int → Int → Proc σ → Int × Proc σ)
    (other_tell : Option (Proc σ → Int × Proc σ))
    (other_seek : Option (Int → Int → Proc σ → Int × Proc σ))
    (offset whence : Int) (p : Proc σ) :
    wandio_tell ENOSYS { tell := none, seek := other_seek } p
      = (-1, { errno := -ENOSYS, stage := p.stage }) ∧
    wandio_seek ENOSYS { tell := other_tell, seek := none } offset whence p
      = (-1, { errno := -ENOSYS, stage := p.stage }) ∧
    ((wandio_tell ENOSYS { tell := none, seek := other_seek } p).2.errno = ENOSYS
      ↔ ENOSYS = 0) ∧
    ((wandio_seek ENOSYS { tell := other_tell, seek := none } offset whence p).2.errno = ENOSYS
      ↔ ENOSYS = 0) ∧
    wandio_tell ENOSYS { tell := some tell, seek := other_seek } p = tell p ∧
    wandio_seek ENOSYS { tell := other_tell, seek := some seek } offset whence p
      = seek offset whence p ∧
    (wandio_tell 38 { tell := none, seek := other_seek } p).2.errno = -38 ∧
    (wandio_seek 38 { tell := other_tell, seek := none } offset whence p).2.errno = -38 := by
  refine ⟨rfl, rfl, ?_, ?_, rfl, rfl, rfl, rfl⟩ <;>
  · simp only [wandio_tell, wandio_seek]
    constructor <;> intro h <;> omega

theorem described_sink_stages (cfg : BuildConfig) (filename : List Char) (flags : Int)
    (compress_type : compress_type_t) (compression_level : Int) (use_threads : Nat) :
    (described_sink cfg filename flags compress_type compression_level use_threads).stages
      = [Stage.stdio] ++ requested_stages cfg compress_type compression_level
        ++ thread_stages use_threads := by
  unfold described_sink requested_stages thread_stages
  cases compress_type <;> simp only [compiled_in, matching_stage] <;>
    split_ifs <;> simp_all [iow_t.stages]

theorem codec_stages_write (cfg : BuildConfig) (compress_type : compress_type_t)
    (compression_level : Int) (use_threads : Nat) :
    codec_stages ([Stage.stdio] ++ requested_stages cfg compress_type compression_level
        ++ thread_stages use_threads)
      = requested_stages cfg compress_type compression_level := by
  unfold requested_stages thread_stages codec_stages
  cases compress_type <;> simp only [compiled_in, matching_stage] <;>
    split_ifs <;> decide

/-- C2: for every format of None, Gzip, Bzip2, LZO, every level 0..9 and every
combination of compiled-in codecs, when the raw stage opens `wandio_wcreate`
returns a sink (no error) that is the raw stage, wrapped in exactly the codec
stage matching the format when the level is not 0 and that codec is compiled in
and in no codec stage otherwise, then wrapped in the threaded stage if and only
if the thread-count request is not 0, whatever the codec outcome. -/
theorem wandio_wcreate_pipeline (cfg : BuildConfig) (env : Env) (g : Globals)
    (filename : List Char) (compress_type : compress_type_t) (compression_level flags : Int)
    (hformat : compress_type ≠ compress_type_t.WANDIO_COMPRESS_MASK)
    (hlo : 0 ≤ compression_level) (hhi : compression_level ≤ 9)
    (hopen : env.stdio_wopen_ok filename flags = true) :
    ∃ iow, (wandio_wcreate cfg env g filename compress_type compression_level flags).ret
        = Ret.returned (some iow) ∧
      iow = described_sink cfg filename flags compress_type compression_level
        (parse_env g env.LIBTRACEIO).g.use_threads ∧
      iow.stages = [Stage.stdio] ++ requested_stages cfg compress_type compression_level
        ++ thread_stages (parse_env g env.LIBTRACEIO).g.use_threads ∧
      codec_stages iow.stages = requested_stages cfg compress_type compression_level ∧
      (compression_level ≠ 0 ∧ compiled_in cfg compress_type = true →
        codec_stages iow.stages = matching_stage compress_type) ∧
      (¬ (compression_level ≠ 0 ∧ compiled_in cfg compress_type = true) →
        codec_stages iow.stages = []) ∧
      (Stage.thread ∈ iow.stages ↔ (parse_env g env.LIBTRACEIO).g.use_threads ≠ 0) := by
  have hret : (wandio_wcreate cfg env g filename compress_type compression_level flags).ret
      = Ret.returned (some (described_sink cfg filename flags compress_type compression_level
        (parse_env g env.LIBTRACEIO).g.use_threads)) := by
    obtain ⟨z, b, l, n⟩ := cfg
    simp only [wandio_wcreate, stdio_wopen, hopen, select_codec, else_if_chain, zlib_wopen,
      lzo_wopen, bz_wopen, thread_wopen, described_sink, compiled_in, if_true, Option.map]
    cases compress_type <;> cases z <;> cases b <;> cases l <;> cases n <;>
      simp_all <;> split_ifs <;> simp_all
  refine ⟨_, hret, rfl, described_sink_stages _ _ _ _ _ _, ?_, ?_, ?_, ?_⟩
  · rw [described_sink_stages]; exact codec_stages_write _ _ _ _
  · intro h
    rw [described_sink_stages, codec_stages_write]
    simp [requested_stages, h]
  · intro h
    rw [described_sink_stages, codec_stages_write]
    simp only [requested_stages, if_neg h]
  · rw [described_sink_stages]
    unfold requested_stages thread_stages
    cases compress_type <;> simp only [matching_stage] <;> split_ifs <;> simp_all

theorem wandio_wcreate_pipeline_witness :
    compress_type_t.WANDIO_COMPRESS_BZ2 ≠ compress_type_t.WANDIO_COMPRESS_MASK ∧
    (0 : Int) ≤ 6 ∧ (6 : Int) ≤ 9 ∧
    (sample_env (some "nothreads".toList) true 0 []).stdio_wopen_ok "out.bz2".toList 0 = true ∧
    ∃ iow, (wandio_wcreate ⟨true, false, true, false⟩ (sample_env (some "nothreads".toList) true 0 [])
        initial_globals "out.bz2".toList compress_type_t.WANDIO_COMPRESS_BZ2 6 0).ret
        = Ret.returned (some iow) ∧ iow.stages = [Stage.stdio] := by
  refine ⟨by decide, by decide, by decide, rfl, ?_⟩
  obtain ⟨iow, h, _, hs, _⟩ := wandio_wcreate_pipeline ⟨true, false, true, false⟩
    (sample_env (some "nothreads".toList) true 0 []) initial_globals "out.bz2".toList
    compress_type_t.WANDIO_COMPRESS_BZ2 6 0 (by decide) (by decide) (by decide) rfl
  refine ⟨iow, h, ?_⟩
  rw [hs]
  decide

/-- C5 (counterexample): with assertions enabled, `wandio_wcreate` at level 10
does not return NULL: the failed assertion aborts the process, so the call does
not return at all. -/
theorem wandio_wcreate_level_10_aborts :
    (wandio_wcreate full_build (sample_env none true 0 []) initial_globals "out.gz".toList
      compress_type_t.WANDIO_COMPRESS_ZLIB 10 0).ret = Ret.aborted ∧
    (wandio_wcreate full_build (sample_env none true 0 []) initial_globals "out.gz".toList
      compress_type_t.WANDIO_COMPRESS_ZLIB 10 0).ret ≠ Ret.returned none := by
  decide

/-- C5 (amended): with assertions enabled, for every level outside 0..9 and
every filename, format and flags, `wandio_wcreate` is stopped by the failed
assertion at the open call: it returns nothing, neither a sink nor NULL, and the
level is checked after `parse_env` and before the raw stage is opened, so the
raw opener is never called (no file is created or truncated) and no codec or
threaded stage is constructed. -/
theorem wandio_wcreate_invalid_level (cfg : BuildConfig) (env : Env) (g : Globals)
    (filename : List Char) (compress_type : compress_type_t) (compression_level flags : Int)
    (hassert : cfg.NDEBUG = false)
    (hlevel : compression_level < 0 ∨ 9 < compression_level) :
    (wandio_wcreate cfg env g filename compress_type compression_level flags).ret
      = Ret.aborted ∧
    (∀ v, (wandio_wcreate cfg env g filename compress_type compression_level flags).ret
      ≠ Ret.returned v) ∧
    (wandio_wcreate cfg env g filename compress_type compression_level flags).calls
      = [Call.getenv, Call.abort] ∧
    (wandio_wcreate cfg env g filename compress_type compression_level flags).g
      = (parse_env g env.LIBTRACEIO).g := by
  have hc : (decide (0 ≤ compression_level) && decide (compression_level ≤ 9)) = false := by
    rcases hlevel with h | h
    · have : ¬ 0 ≤ compression_level := by omega
      simp [this]
    · have : ¬ compression_level ≤ 9 := by omega
      simp [this]
  simp [wandio_wcreate, hassert, hc]

theorem wandio_wcreate_invalid_level_witness :
    full_build.NDEBUG = false ∧ ((-1 : Int) < 0 ∨ (9 : Int) < -1) ∧
    (wandio_wcreate full_build (sample_env none true 0 []) initial_globals "out".toList
      compress_type_t.WANDIO_COMPRESS_NONE (-1) 0).calls = [Call.getenv, Call.abort] :=
  ⟨rfl, by decide, (wandio_wcreate_invalid_level full_build (sample_env none true 0 [])
    initial_globals "out".toList compress_type_t.WANDIO_COMPRESS_NONE (-1) 0 rfl
    (by decide)).2.2.1⟩

/-- C8: the two sides separately, each under its own condition only. For every
filename whose raw stage `stdio_open` cannot open, `wandio_create` returns NULL
having called only `stdio_open` and `peek_open`: no peek at a missing stream, no
codec stage, no threaded stage. For every filename and flags for which
`stdio_wopen` yields no stage, `wandio_wcreate` reaches `stdio_wopen` exactly
when its assertions pass or are compiled out, and whenever it reaches it,
returns NULL having called nothing after it: no codec stage, no threaded
stage. -/
theorem open_failure_returns_null (cfg : BuildConfig) (env : Env) (g : Globals)
    (filename : List Char) (compress_type : compress_type_t)
    (compression_level flags : Int) :
    (env.stdio_open_ok filename = false →
      (wandio_create cfg env g filename).ret = Ret.returned none ∧
      (wandio_create cfg env g filename).calls
        = [Call.getenv, Call.stdio_open filename, Call.peek_open] ∧
      (∀ c ∈ (wandio_create cfg env g filename).calls, c ≠ Call.wandio_peek ∧
        c ≠ Call.zlib_open ∧ c ≠ Call.bz_open ∧ c ≠ Call.thread_open)) ∧
    (env.stdio_wopen_ok filename flags = false →
      (Call.stdio_wopen filename flags ∈
          (wandio_wcreate cfg env g filename compress_type compression_level flags).calls ↔
        cfg.NDEBUG = true ∨ (0 ≤ compression_level ∧ compression_level ≤ 9 ∧
          compress_type ≠ compress_type_t.WANDIO_COMPRESS_MASK)) ∧
      (Call.stdio_wopen filename flags ∈
          (wandio_wcreate cfg env g filename compress_type compression_level flags).calls →
        (wandio_wcreate cfg env g filename compress_type compression_level flags).ret
          = Ret.returned none ∧
        (wandio_wcreate cfg env g filename compress_type compression_level flags).calls
          = [Call.getenv, Call.stdio_wopen filename flags] ∧
        (∀ c ∈ (wandio_wcreate cfg env g filename compress_type compression_level
            flags).calls,
          c ≠ Call.zlib_wopen compression_level ∧ c ≠ Call.lzo_wopen compression_level ∧
          c ≠ Call.bz_wopen compression_level ∧ c ≠ Call.thread_wopen))) := by
  constructor
  · intro hread
    have hr : (wandio_create cfg env g filename).ret = Ret.returned none ∧
        (wandio_create cfg env g filename).calls
          = [Call.getenv, Call.stdio_open filename, Call.peek_open] := by
      simp [wandio_create, stdio_open, hread, peek_open]
    refine ⟨hr.1, hr.2, ?_⟩
    rw [hr.2]
    intro c hc
    simp only [List.mem_cons, List.mem_singleton, List.not_mem_nil, or_false] at hc
    rcases hc with rfl | rfl | rfl <;> simp
  · intro hwrite
    have hcases : (Call.stdio_wopen filename flags ∈
          (wandio_wcreate cfg env g filename compress_type compression_level flags).calls →
        (wandio_wcreate cfg env g filename compress_type compression_level flags).ret
          = Ret.returned none ∧
        (wandio_wcreate cfg env g filename compress_type compression_level flags).calls
          = [Call.getenv, Call.stdio_wopen filename flags]) := by
      simp only [wandio_wcreate, stdio_wopen, hwrite]
      split_ifs <;> first | contradiction | simp
    refine ⟨?_, fun hreached => ?_⟩
    · simp only [wandio_wcreate, stdio_wopen, hwrite]
      obtain ⟨z, b, l, n⟩ := cfg
      by_cases h0 : 0 ≤ compression_level <;> by_cases h9 : compression_level ≤ 9 <;>
        cases n <;> cases compress_type <;> simp [h0, h9]
    · obtain ⟨h1, h2⟩ := hcases hreached
      refine ⟨h1, h2, ?_⟩
      rw [h2]
      intro c hc
      simp only [List.mem_cons, List.mem_singleton, List.not_mem_nil, or_false] at hc
      rcases hc with rfl | rfl <;> simp

theorem open_failure_returns_null_witness :
    ({ LIBTRACEIO := none, stdio_open_ok := fun _ => false, peek_len := 0,
       peek_buffer := fun _ => 0, stdio_wopen_ok := fun _ _ => true } : Env).stdio_open_ok
      "missing".toList = false ∧
    (wandio_create full_build
      { LIBTRACEIO := none, stdio_open_ok := fun _ => false, peek_len := 0,
        peek_buffer := fun _ => 0, stdio_wopen_ok := fun _ _ => true }
      initial_globals "missing".toList).ret = Ret.returned none ∧
    ({ LIBTRACEIO := none, stdio_open_ok := fun _ => true, peek_len := 0,
       peek_buffer := fun _ => 0, stdio_wopen_ok := fun _ _ => false } : Env).stdio_wopen_ok
      "denied".toList 0 = false ∧
    (wandio_wcreate full_build
      { LIBTRACEIO := none, stdio_open_ok := fun _ => true, peek_len := 0,
        peek_buffer := fun _ => 0, stdio_wopen_ok := fun _ _ => false }
      initial_globals "denied".toList compress_type_t.WANDIO_COMPRESS_ZLIB 5 0).ret
      = Ret.returned none :=
  ⟨rfl,
   ((open_failure_returns_null full_build
      { LIBTRACEIO := none, stdio_open_ok := fun _ => false, peek_len := 0,
        peek_buffer := fun _ => 0, stdio_wopen_ok := fun _ _ => true }
      initial_globals "missing".toList compress_type_t.WANDIO_COMPRESS_NONE 0 0).1 rfl).1,
   rfl,
   (((open_failure_returns_null full_build
      { LIBTRACEIO := none, stdio_open_ok := fun _ => true, peek_len := 0,
        peek_buffer := fun _ => 0, stdio_wopen_ok := fun _ _ => false }
      initial_globals "denied".toList compress_type_t.WANDIO_COMPRESS_ZLIB 5 0).2 rfl).2
      (by decide)).1⟩

/-! ## Theorems: configuration parsing -/

theorem tokens_nil : tokens [] = [[]] := rfl

theorem tokens_ne_nil (s : List Char) : tokens s ≠ [] := List.splitOnP_ne_nil _ _

theorem tokens_cons_comma (s : List Char) : tokens (',' :: s) = [] :: tokens s := by
  simp [tokens, List.splitOn, List.splitOnP_cons]

theorem tokens_cons_other (c : Char) (s t0 : List Char) (ts : List (List Char))
    (hc : c ≠ ',') (h : tokens s = t0 :: ts) : tokens (c :: s) = (c :: t0) :: ts := by
  simp only [tokens, List.splitOn] at h ⊢
  rw [List.splitOnP_cons, h]
  simp [hc]

theorem parse_loop_spec (ip : List Char) : ∀ (option : List Char) (st : ParseState)
    (t0 : List Char) (ts : List (List Char)), option.length ≤ OPTION_SIZE →
    tokens ip = t0 :: ts →
    (parse_loop ip option st).g = (applied ((option ++ t0) :: ts)).foldl do_option st.g ∧
    (parse_loop ip option st).opts = st.opts ++ applied ((option ++ t0) :: ts) ∧
    (parse_loop ip option st).writes = st.writes ++ stores option.length (t0 :: ts) := by
  induction ip with
  | nil =>
    intro option st t0 ts hlen htok
    rw [tokens_nil] at htok
    obtain ⟨rfl, rfl⟩ : [] = t0 ∧ [] = ts := by simpa using htok
    have htake : option.take OPTION_SIZE = option := List.take_of_length_le hlen
    simp only [parse_loop, terminate_and_call, ParseState.call, ParseState.store, applied,
      stores, List.append_nil, List.length_nil, Nat.add_zero]
    refine ⟨?_, ?_, ?_⟩
    · split_ifs <;> simp [htake]
    · split_ifs <;> simp [htake]
    · split_ifs with h
      · rw [List.range'_one]
      · have : OPTION_SIZE - option.length + 1 = 1 := by omega
        rw [this, List.range'_one]
  | cons c ip ih =>
    intro option st t0 ts hlen htok
    obtain ⟨u0, us, hu⟩ : ∃ u0 us, tokens ip = u0 :: us := by
      cases h : tokens ip with
      | nil => exact absurd h (tokens_ne_nil ip)
      | cons a b => exact ⟨a, b, rfl⟩
    by_cases hfull : option.length < OPTION_SIZE
    · by_cases hc : c = ','
      · subst hc
        rw [tokens_cons_comma, hu] at htok
        obtain ⟨rfl, rfl⟩ : [] = t0 ∧ u0 :: us = ts := by simpa using htok
        have ih1 := ih [] (terminate_and_call st option) u0 us (by simp) hu
        simp only [parse_loop, hfull, if_true]
        simp only [List.nil_append] at ih1
        obtain ⟨h1, h2, h3⟩ := ih1
        refine ⟨?_, ?_, ?_⟩
        · rw [h1]
          simp [applied, hfull, terminate_and_call, ParseState.call, ParseState.store]
        · rw [h2]
          simp [applied, hfull, terminate_and_call, ParseState.call, ParseState.store]
        · rw [h3]
          simp only [stores, List.length_nil, Nat.add_zero, hfull, if_true, terminate_and_call,
            ParseState.call, ParseState.store, Nat.zero_add, List.range'_one,
            List.append_assoc]
      · rw [tokens_cons_other c ip u0 us hc hu] at htok
        obtain ⟨rfl, rfl⟩ : c :: u0 = t0 ∧ us = ts := by simpa using htok
        have hlen1 : (option ++ [c]).length ≤ OPTION_SIZE := by
          simp only [List.length_append, List.length_singleton]; omega
        obtain ⟨h1, h2, h3⟩ := ih (option ++ [c]) (st.store option.length) u0 us hlen1 hu
        simp only [parse_loop, hfull, hc, if_true, if_false]
        have happ : option ++ [c] ++ u0 = option ++ c :: u0 := by simp
        refine ⟨?_, ?_, ?_⟩
        · rw [h1, happ]; rfl
        · rw [h2, happ]; rfl
        · have hl : (option ++ [c]).length = option.length + 1 := by simp
          rw [h3, hl]
          simp only [ParseState.store, stores, List.length_cons, List.append_assoc]
          congr 1
          by_cases hfit : option.length + (u0.length + 1) < OPTION_SIZE
          · have hfit2 : option.length + 1 + u0.length < OPTION_SIZE := by omega
            rw [if_pos hfit, if_pos hfit2, List.range'_succ option.length]
            rfl
          · have hfit2 : ¬ option.length + 1 + u0.length < OPTION_SIZE := by omega
            rw [if_neg hfit, if_neg hfit2]
            have : OPTION_SIZE - option.length + 1
                = (OPTION_SIZE - (option.length + 1) + 1) + 1 := by omega
            rw [this, List.range'_succ option.length]
            rfl
    · have heq : option.length = OPTION_SIZE := by omega
      have htake : (option ++ t0).take OPTION_SIZE = option := by
        rw [← heq]; simp
      have hnot : ¬ (option ++ t0).length < OPTION_SIZE := by
        simp only [List.length_append]; omega
      have hnot2 : ¬ option.length + t0.length < OPTION_SIZE := by omega
      simp only [parse_loop, hfull, if_false, terminate_and_call, ParseState.call,
        ParseState.store, applied, hnot, stores, hnot2, htake]
      refine ⟨by simp, by simp, ?_⟩
      have : OPTION_SIZE - option.length + 1 = 1 := by omega
      rw [this, List.range'_one]

theorem parse_loop_unread (ip : List Char) : ∀ (option : List Char) (st : ParseState)
    (t0 : List Char) (ts : List (List Char)), tokens ip = t0 :: ts →
    (∀ t ∈ (option ++ t0) :: ts, t.length < OPTION_SIZE) →
    (parse_loop ip option st).unread = st.unread := by
  induction ip with
  | nil =>
    intro option st t0 ts _ _
    rfl
  | cons c ip ih =>
    intro option st t0 ts htok hfit
    obtain ⟨u0, us, hu⟩ : ∃ u0 us, tokens ip = u0 :: us := by
      cases h : tokens ip with
      | nil => exact absurd h (tokens_ne_nil ip)
      | cons a b => exact ⟨a, b, rfl⟩
    have hhead : (option ++ t0).length < OPTION_SIZE := hfit _ (List.mem_cons_self _ _)
    have hfull : option.length < OPTION_SIZE := by
      simp only [List.length_append] at hhead; omega
    by_cases hc : c = ','
    · subst hc
      rw [tokens_cons_comma, hu] at htok
      obtain ⟨rfl, rfl⟩ : [] = t0 ∧ u0 :: us = ts := by simpa using htok
      simp only [parse_loop, hfull, if_true]
      rw [ih [] _ u0 us hu (fun t ht => hfit t (List.mem_cons_of_mem _ (by simpa using ht)))]
      rfl
    · rw [tokens_cons_other c ip u0 us hc hu] at htok
      obtain ⟨rfl, rfl⟩ : c :: u0 = t0 ∧ us = ts := by simpa using htok
      simp only [parse_loop, hfull, hc, if_true, if_false]
      rw [ih (option ++ [c]) _ u0 us hu (by simpa using hfit)]
      rfl

theorem parse_env_spec (g : Globals) (s : List Char) :
    (parse_env g (some s)).g = (applied (tokens s)).foldl do_option g ∧
    (parse_env g (some s)).opts = applied (tokens s) ∧
    (parse_env g (some s)).writes = stores 0 (tokens s) := by
  obtain ⟨t0, ts, ht⟩ : ∃ t0 ts, tokens s = t0 :: ts := by
    cases h : tokens s with
    | nil => exact absurd h (tokens_ne_nil s)
    | cons a b => exact ⟨a, b, rfl⟩
  have h := parse_loop_spec s [] { g := g, writes := [], opts := [], unread := [] } t0 ts
    (by simp) ht
  simpa [parse_env, ht] using h

theorem applied_of_fit (l : List (List Char)) (h : ∀ t ∈ l, t.length < OPTION_SIZE) :
    applied l = l := by
  induction l with
  | nil => rfl
  | cons t ts ih =>
    have h1 : t.length < OPTION_SIZE := h t (List.mem_cons_self _ _)
    simp only [applied, h1, if_true]
    rw [ih (fun u hu => h u (List.mem_cons_of_mem _ hu))]

theorem applied_overflow (pre post : List (List Char)) (long : List Char)
    (hpre : ∀ t ∈ pre, t.length < OPTION_SIZE) (hlong : OPTION_SIZE ≤ long.length) :
    applied (pre ++ long :: post) = pre ++ [long.take OPTION_SIZE] := by
  induction pre with
  | nil =>
    have : ¬ long.length < OPTION_SIZE := by omega
    simp [applied, this]
  | cons t ts ih =>
    have h1 : t.length < OPTION_SIZE := hpre t (List.mem_cons_self _ _)
    have ih1 := ih (fun u hu => hpre u (List.mem_cons_of_mem _ hu))
    rw [List.cons_append]
    simp only [applied, h1, if_true, ih1, List.cons_append]

theorem stores_lt (l : List (List Char)) :
    (∀ i ∈ stores 0 l, i < OPTION_SIZE) ↔ ∀ t ∈ l, t.length < OPTION_SIZE := by
  induction l with
  | nil => simp [stores]
  | cons t ts ih =>
    by_cases h1 : t.length < OPTION_SIZE
    · have h0 : 0 + t.length < OPTION_SIZE := by omega
      simp only [stores, h0, if_true, List.mem_append, List.mem_cons, forall_eq_or_imp, h1,
        true_and]
      rw [← ih]
      constructor
      · intro h i hi
        exact h i (Or.inr hi)
      · intro h i hi
        rcases hi with hi | hi
        · rw [List.mem_range'_1] at hi
          omega
        · exact h i hi
    · have h0 : ¬ 0 + t.length < OPTION_SIZE := by omega
      simp only [stores, h0, if_false, List.mem_cons, forall_eq_or_imp, h1, false_and,
        iff_false, not_forall]
      refine ⟨OPTION_SIZE, ?_, by omega⟩
      rw [List.mem_range'_1]
      omega

theorem stores_overflow (pre post : List (List Char)) (long : List Char)
    (hpre : ∀ t ∈ pre, t.length < OPTION_SIZE) (hlong : OPTION_SIZE ≤ long.length) :
    (stores 0 (pre ++ long :: post)).getLast? = some OPTION_SIZE := by
  induction pre with
  | nil =>
    have h0 : ¬ 0 + long.length < OPTION_SIZE := by omega
    simp only [List.nil_append, stores, h0, if_false, Nat.sub_zero]
    rw [List.range'_concat]
    simp
  | cons t ts ih =>
    have h1 : 0 + t.length < OPTION_SIZE := by
      have := hpre t (List.mem_cons_self _ _); omega
    have ih1 := ih (fun u hu => hpre u (List.mem_cons_of_mem _ hu))
    rw [List.cons_append]
    simp only [stores, h1, if_true]
    rw [List.getLast?_append, ih1]
    rfl

theorem parse_env_of_fit (g : Globals) (s : List Char)
    (hfit : ∀ t ∈ tokens s, t.length < OPTION_SIZE) :
    (parse_env g (some s)).unread = [] ∧
    (parse_env g (some s)).opts = tokens s ∧
    (parse_env g (some s)).g = (tokens s).foldl do_option g := by
  obtain ⟨hg, ho, _⟩ := parse_env_spec g s
  refine ⟨?_, ?_, ?_⟩
  · obtain ⟨t0, ts, ht⟩ : ∃ t0 ts, tokens s = t0 :: ts := by
      cases h : tokens s with
      | nil => exact absurd h (tokens_ne_nil s)
      | cons a b => exact ⟨a, b, rfl⟩
    have := parse_loop_unread s [] { g := g, writes := [], opts := [], unread := [] } t0 ts ht
      (by simpa [ht] using hfit)
    simpa [parse_env] using this
  · rw [ho, applied_of_fit _ hfit]
  · rw [hg, applied_of_fit _ hfit]

theorem fit_iff (l : List (List Char)) :
    (∀ t ∈ l, t.length ≤ 1023) ↔ ∀ t ∈ l, t.length < OPTION_SIZE := by
  constructor <;> intro h t ht <;> have := h t ht <;> simp only [OPTION_SIZE] at * <;> omega

theorem parse_env_fold (g : Globals) (s : List Char) (hfit : ∀ t ∈ tokens s, t.length ≤ 1023) :
    (parse_env g (some s)).g = (tokens s).foldl do_option g :=
  (parse_env_of_fit g s ((fit_iff _).mp hfit)).2.2

theorem tokens_replicate (n : Nat) (rest t0 : List Char) (ts : List (List Char))
    (h : tokens rest = t0 :: ts) :
    tokens (List.replicate n 'a' ++ rest) = (List.replicate n 'a' ++ t0) :: ts := by
  induction n with
  | zero => simpa using h
  | succ k ih =>
    rw [List.replicate_succ, List.cons_append, tokens_cons_other 'a' _ _ ts (by decide) ih]
    rfl

/-- C9: for every configuration string, all the stores `parse_env` makes into
the 1024-byte `option` buffer are at indices below 1024 if and only if no
comma-separated token is longer than 1023 bytes (there is no store at all when
the variable is unset); in that case the loop reads
the whole string and passes every token, in order, to `do_option`; and when the
first token of 1024 or more bytes is reached, the terminator is stored at index
1024 and tokenising stops: `do_option` gets the earlier tokens and the first
1024 bytes of that token, and never a later token. -/
theorem parse_env_option_bounds (g : Globals) (s : List Char) :
    (parse_env g none).writes = [] ∧
    ((∀ i ∈ (parse_env g (some s)).writes, i < OPTION_SIZE) ↔
      ∀ t ∈ tokens s, t.length ≤ 1023) ∧
    ((∀ t ∈ tokens s, t.length ≤ 1023) →
      (parse_env g (some s)).unread = [] ∧
      (parse_env g (some s)).opts = tokens s ∧
      (parse_env g (some s)).g = (tokens s).foldl do_option g) ∧
    (∀ (pre post : List (List Char)) (long : List Char),
      tokens s = pre ++ long :: post → (∀ t ∈ pre, t.length ≤ 1023) → 1024 ≤ long.length →
      (parse_env g (some s)).writes.getLast? = some 1024 ∧
      (parse_env g (some s)).opts = pre ++ [long.take 1024] ∧
      (parse_env g (some s)).g = (pre ++ [long.take 1024]).foldl do_option g) := by
  obtain ⟨hg, ho, hw⟩ := parse_env_spec g s
  refine ⟨rfl, ?_, ?_, ?_⟩
  · rw [hw, stores_lt, fit_iff]
  · intro hfit
    exact parse_env_of_fit g s ((fit_iff _).mp hfit)
  · intro pre post long htok hpre hlong
    rw [fit_iff] at hpre
    have hlong2 : OPTION_SIZE ≤ long.length := hlong
    refine ⟨?_, ?_, ?_⟩
    · rw [hw, htok]
      exact stores_overflow pre post long hpre hlong2
    · rw [ho, htok]
      exact applied_overflow pre post long hpre hlong2
    · rw [hg, htok, applied_overflow pre post long hpre hlong2]
      rfl

theorem parse_env_option_bounds_witness :
    (∀ t ∈ tokens "stats,nothreads".toList, t.length ≤ 1023) ∧
    (parse_env initial_globals (some "stats,nothreads".toList)).opts
      = ["stats".toList, "nothreads".toList] ∧
    tokens (List.replicate 1024 'a' ++ ",stats".toList)
      = [] ++ List.replicate 1024 'a' :: ["stats".toList] ∧
    (parse_env initial_globals (some (List.replicate 1024 'a' ++ ",stats".toList))).opts
      = [] ++ [(List.replicate 1024 'a').take 1024] ∧
    (parse_env initial_globals
      (some (List.replicate 1024 'a' ++ ",stats".toList))).writes.getLast? = some 1024 := by
  have h1 : ∀ t ∈ tokens "stats,nothreads".toList, t.length ≤ 1023 := by decide
  have h2 : tokens (List.replicate 1024 'a' ++ ",stats".toList)
      = [] ++ List.replicate 1024 'a' :: ["stats".toList] := by
    rw [tokens_replicate 1024 ",stats".toList [] ["stats".toList] (by decide),
      List.append_nil, List.nil_append]
  have h3 := (parse_env_option_bounds initial_globals
    (List.replicate 1024 'a' ++ ",stats".toList)).2.2.2 [] ["stats".toList]
    (List.replicate 1024 'a') h2 (fun t ht => absurd ht (List.not_mem_nil t))
    (by rw [List.length_replicate])
  have h4 := ((parse_env_option_bounds initial_globals "stats,nothreads".toList).2.2.1 h1).2.1
  exact ⟨h1, h4, h2, h3.2.1, h3.1⟩

theorem isdigit_toNat (c : Char) (h : isdigit c = true) : 48 ≤ c.toNat ∧ c.toNat ≤ 57 := by
  simp only [isdigit, Bool.and_eq_true, decide_eq_true_eq] at h
  obtain ⟨h1, h2⟩ := h
  rw [Char.le_def] at h1 h2
  exact ⟨h1, h2⟩

theorem isdigit_not_space (c : Char) (h : isdigit c = true) : isspace c = false := by
  have := isdigit_toNat c h
  simp only [isspace, Bool.or_eq_false_iff, decide_eq_false_iff_not]
  refine ⟨⟨⟨⟨⟨?_, ?_⟩, ?_⟩, ?_⟩, ?_⟩, ?_⟩ <;> (rintro rfl; revert this; decide)

theorem isdigit_not_sign (c : Char) (h : isdigit c = true) : c ≠ '-' ∧ c ≠ '+' := by
  have := isdigit_toNat c h
  constructor <;> (rintro rfl; revert this; decide)

theorem takeWhile_all (ds : List Char) (h : ds.all isdigit = true) :
    ds.takeWhile isdigit = ds := by
  rw [List.takeWhile_eq_self_iff]
  intro x hx
  exact List.all_eq_true.mp h x hx

theorem atoi_digits (ds : List Char) (hne : ds ≠ []) (h : ds.all isdigit = true) :
    atoi ds = (digits_value ds : Int) := by
  cases ds with
  | nil => exact absurd rfl hne
  | cons d rest =>
    have hd : isdigit d = true := List.all_eq_true.mp h d (List.mem_cons_self _ _)
    have hs := isdigit_not_space d hd
    obtain ⟨hm, hp⟩ := isdigit_not_sign d hd
    have hdrop : (d :: rest).dropWhile isspace = d :: rest := by
      simp [List.dropWhile, hs]
    unfold atoi
    rw [hdrop]
    split
    · rename_i heq
      exact absurd (List.cons.inj heq).1 hm
    · rename_i heq
      exact absurd (List.cons.inj heq).1 hp
    · rw [takeWhile_all _ h]

theorem atoi_minus_digits (ds : List Char) (h : ds.all isdigit = true) :
    atoi ('-' :: ds) = -(digits_value ds : Int) := by
  have hdrop : ('-' :: ds).dropWhile isspace = '-' :: ds := by
    have : isspace '-' = false := by decide
    simp [List.dropWhile, this]
  unfold atoi
  rw [hdrop]
  simp only
  rw [takeWhile_all _ h]

theorem atoi_decimal_integer (s : List Char) (n : Int) (h : decimal_integer s = some n) :
    atoi s = n := by
  unfold decimal_integer at h
  split at h
  · split_ifs at h with hc
    rw [atoi_minus_digits _ hc.2]
    exact Option.some.inj h
  · split_ifs at h with hc
    rw [atoi_digits _ hc.1 hc.2]
    exact Option.some.inj h

theorem atoi_int_numeral (s : List Char) (n : Int) (h : int_numeral s = some n) :
    atoi s = n := by
  unfold int_numeral at h
  split at h
  · rename_i m hm
    split_ifs at h
    rw [atoi_decimal_integer s m hm]
    exact Option.some.inj h
  · exact absurd h (by simp)

theorem do_option_threads (g : Globals) (rest : List Char) :
    do_option g ("threads=".toList ++ rest)
      = { g with use_threads := to_unsigned (atoi rest) } := by
  simp [do_option, strncmp_eq, List.isPrefixOf]

theorem do_option_buffers (g : Globals) (rest : List Char) :
    do_option g ("buffers=".toList ++ rest)
      = { g with max_buffers := to_unsigned (atoi rest) } := by
  simp [do_option, strncmp_eq, List.isPrefixOf]

theorem do_option_unknown (g : Globals) (tok : List Char)
    (h1 : tok ≠ "stats".toList) (h2 : tok ≠ "nothreads".toList)
    (h3 : "threads=".toList.isPrefixOf tok = false)
    (h4 : "buffers=".toList.isPrefixOf tok = false) : do_option g tok = g := by
  simp only [do_option, strncmp_eq, h1, h2, h3, h4, if_false, Bool.false_eq_true, ite_self]

theorem do_option_claimed (g : Globals) (tok : List Char)
    (h : ("threads=".toList.isPrefixOf tok = false ∧ "buffers=".toList.isPrefixOf tok = false)
      ∨ int_numeral (tok.drop 8) ≠ none) :
    do_option g tok = claimed_token_effect g tok := by
  by_cases h0 : tok = []
  · subst h0; rfl
  by_cases h1 : tok = "stats".toList
  · subst h1; rfl
  by_cases h2 : tok = "nothreads".toList
  · subst h2; rfl
  cases h3 : "threads=".toList.isPrefixOf tok
  · cases h4 : "buffers=".toList.isPrefixOf tok
    · simp only [do_option, claimed_token_effect, strncmp_eq, h0, h1, h2, h3, h4, if_false,
        Bool.false_eq_true]
    · have hn : int_numeral (tok.drop 8) ≠ none := by
        rcases h with h | h
        · rw [h4] at h; exact absurd h.2 (by simp)
        · exact h
      obtain ⟨n, hn⟩ := Option.ne_none_iff_exists'.mp hn
      simp only [do_option, claimed_token_effect, strncmp_eq, h0, h1, h2, h3, h4, hn,
        atoi_int_numeral _ _ hn, if_false, if_true, Bool.false_eq_true]
  · have hn : int_numeral (tok.drop 8) ≠ none := by
      rcases h with h | h
      · rw [h3] at h; exact absurd h.1 (by simp)
      · exact h
    obtain ⟨n, hn⟩ := Option.ne_none_iff_exists'.mp hn
    simp only [do_option, claimed_token_effect, strncmp_eq, h0, h1, h2, h3, hn,
      atoi_int_numeral _ _ hn, if_false, if_true]

theorem to_unsigned_nonneg (n : Int) (h0 : 0 ≤ n) (h1 : n ≤ 2 ^ 31 - 1) :
    to_unsigned n = n.toNat := by
  simp only [to_unsigned, UINT_RANGE]
  omega

/-- C3 (counterexample): on the configuration string `threads=abc` the code
sets the thread-count request to 0, whereas the stated rules, for which this
token is of no recognized form, leave it at its default. -/
theorem parse_env_threads_abc :
    (parse_env initial_globals (some "threads=abc".toList)).g
      ≠ (tokens "threads=abc".toList).foldl claimed_token_effect initial_globals ∧
    (parse_env initial_globals (some "threads=abc".toList)).g.use_threads = 0 ∧
    ((tokens "threads=abc".toList).foldl claimed_token_effect initial_globals).use_threads
      = 4294967295 ∧
    (∀ t ∈ tokens "threads=abc".toList, t.length ≤ 1023) := by
  decide

/-- C3 (amended): for every configuration string whose comma-separated tokens
each fit in the option buffer (at most 1023 bytes), the configuration after
`parse_env` is the starting one (the defaults: stats off, thread-count request
non-zero, pool cap 50) with the tokens applied left to right by `do_option`,
where the empty token does nothing, `stats` sets the stats flag, `nothreads`
sets the thread-count request to 0, a token beginning `threads=` (`buffers=`)
sets the thread-count request (pool cap) to what `atoi` reads from the rest,
stored as an `unsigned int` (that is `n` when the rest is a decimal integer `n`
in `int` range, and 0 when the rest does not begin with a number), and every
other token changes nothing; so the code follows the stated rules on every token
except one beginning `threads=` or `buffers=` whose rest is not a decimal
integer in `int` range. An absent or empty string leaves the configuration
unchanged. -/
theorem parse_env_applies_tokens (g : Globals) (s : List Char)
    (hfit : ∀ t ∈ tokens s, t.length ≤ 1023) :
    (parse_env g (some s)).g = (tokens s).foldl do_option g ∧
    (initial_globals.keep_stats = 0 ∧ initial_globals.use_threads ≠ 0 ∧
      initial_globals.max_buffers = 50) ∧
    (parse_env g none).g = g ∧
    (parse_env g (some [])).g = g ∧
    (∀ c : Globals, do_option c [] = c) ∧
    (∀ c : Globals, do_option c "stats".toList = { c with keep_stats := 1 }) ∧
    (∀ c : Globals, do_option c "nothreads".toList = { c with use_threads := 0 }) ∧
    (∀ (c : Globals) (rest : List Char), do_option c ("threads=".toList ++ rest)
      = { c with use_threads := to_unsigned (atoi rest) }) ∧
    (∀ (c : Globals) (rest : List Char), do_option c ("buffers=".toList ++ rest)
      = { c with max_buffers := to_unsigned (atoi rest) }) ∧
    (∀ (rest : List Char) (n : Int), int_numeral rest = some n →
      atoi rest = n ∧ (0 ≤ n → to_unsigned (atoi rest) = n.toNat)) ∧
    (∀ rest : List Char, (rest.dropWhile isspace = [] ∨
        ∃ d r, rest.dropWhile isspace = d :: r ∧ d ≠ '-' ∧ d ≠ '+' ∧ isdigit d = false) →
      atoi rest = 0) ∧
    (∀ (c : Globals) (tok : List Char), tok ≠ "stats".toList → tok ≠ "nothreads".toList →
      "threads=".toList.isPrefixOf tok = false → "buffers=".toList.isPrefixOf tok = false →
      do_option c tok = c) ∧
    (∀ (c : Globals) (tok : List Char),
      ("threads=".toList.isPrefixOf tok = false ∧ "buffers=".toList.isPrefixOf tok = false)
        ∨ int_numeral (tok.drop 8) ≠ none →
      do_option c tok = claimed_token_effect c tok) := by
  refine ⟨parse_env_fold g s hfit, by decide, rfl, rfl, fun _ => rfl,
    fun _ => rfl, fun _ => rfl, do_option_threads, do_option_buffers, ?_, ?_, do_option_unknown,
    do_option_claimed⟩
  · intro rest n hn
    have hat := atoi_int_numeral rest n hn
    refine ⟨hat, fun h0 => ?_⟩
    rw [hat]
    apply to_unsigned_nonneg n h0
    unfold int_numeral at hn
    split at hn
    · split_ifs at hn with hr
      have := Option.some.inj hn
      omega
    · exact absurd hn (by simp)
  · intro rest h
    unfold atoi
    rcases h with h | ⟨d, r, h, hm, hp, hd⟩
    · rw [h]
      rfl
    · rw [h]
      split
      · rename_i heq
        exact absurd (List.cons.inj heq).1 hm
      · rename_i heq
        exact absurd (List.cons.inj heq).1 hp
      · simp [List.takeWhile, hd, digits_value]

theorem parse_env_applies_tokens_witness :
    (∀ t ∈ tokens "stats,threads=4,,buffers=7,zz".toList, t.length ≤ 1023) ∧
    (parse_env initial_globals (some "stats,threads=4,,buffers=7,zz".toList)).g
      = (tokens "stats,threads=4,,buffers=7,zz".toList).foldl do_option initial_globals ∧
    (tokens "stats,threads=4,,buffers=7,zz".toList).foldl do_option initial_globals
      = { keep_stats := 1, use_threads := 4, max_buffers := 7 } :=
  ⟨by decide, (parse_env_applies_tokens initial_globals "stats,threads=4,,buffers=7,zz".toList
    (by decide)).1, by decide⟩

theorem fieldWise_do_option (t : List Char) : FieldWise (fun g => do_option g t) := by
  unfold FieldWise do_option
  split_ifs
  · exact ⟨none, none, none, fun _ => rfl⟩
  · exact ⟨some 1, none, none, fun _ => rfl⟩
  · exact ⟨none, some 0, none, fun _ => rfl⟩
  · exact ⟨none, some (to_unsigned (atoi (t.drop 8))), none, fun _ => rfl⟩
  · exact ⟨none, none, some (to_unsigned (atoi (t.drop 8))), fun _ => rfl⟩
  · exact ⟨none, none, none, fun _ => rfl⟩

theorem fieldWise_foldl (l : List (List Char)) : FieldWise (fun g => l.foldl do_option g) := by
  induction l with
  | nil => exact ⟨none, none, none, fun _ => rfl⟩
  | cons t ts ih =>
    obtain ⟨a, b, c, h⟩ := ih
    obtain ⟨a1, b1, c1, h1⟩ := fieldWise_do_option t
    refine ⟨a.orElse (fun _ => a1), b.orElse (fun _ => b1), c.orElse (fun _ => c1), fun g => ?_⟩
    have h2 := h (do_option g t)
    have h3 := h1 g
    simp only at h2 h3
    simp only [List.foldl_cons]
    rw [h2, h3]
    cases a <;> cases b <;> cases c <;> rfl

theorem fieldWise_idempotent (f : Globals → Globals) (h : FieldWise f) (g : Globals) :
    f (f g) = f g := by
  obtain ⟨a, b, c, h⟩ := h
  rw [h (f g), h g]
  cases a <;> cases b <;> cases c <;> rfl

theorem parse_env_twice (g : Globals) (str : Option (List Char)) :
    (parse_env (parse_env g str).g str).g = (parse_env g str).g := by
  cases str with
  | none => rfl
  | some s =>
    rw [(parse_env_spec (parse_env g (some s)).g s).1, (parse_env_spec g s).1]
    exact fieldWise_idempotent _ (fieldWise_foldl _) g

theorem wandio_create_g (cfg : BuildConfig) (env : Env) (g : Globals) (filename : List Char) :
    (wandio_create cfg env g filename).g = (parse_env g env.LIBTRACEIO).g := by
  unfold wandio_create
  simp only
  split <;> rfl

theorem wandio_wcreate_g (cfg : BuildConfig) (env : Env) (g : Globals) (filename : List Char)
    (compress_type : compress_type_t) (compression_level flags : Int) :
    (wandio_wcreate cfg env g filename compress_type compression_level flags).g
      = (parse_env g env.LIBTRACEIO).g := by
  unfold wandio_wcreate
  simp only
  split_ifs <;> first | rfl | (split <;> rfl)

theorem openCall_run (str : Option (List Char)) (g : Globals) (c : OpenCall) :
    c.run str g = (parse_env g str).g := by
  cases c with
  | create cfg env filename => exact wandio_create_g _ _ _ _
  | wcreate cfg env filename ct lvl flags => exact wandio_wcreate_g _ _ _ _ _ _ _

theorem later_calls_stable (str : Option (List Char)) (later : List OpenCall) :
    ∀ g : Globals, later.foldl (OpenCall.run str) (parse_env g str).g = (parse_env g str).g := by
  induction later with
  | nil => intro g; rfl
  | cons c cs ih =>
    intro g
    rw [List.foldl_cons, openCall_run, parse_env_twice]
    exact ih g

/-- C7: parsing is idempotent: for every string and every starting
configuration, parsing the string again on top of the configuration it produced
changes nothing; every pipeline-open call (`wandio_create` or `wandio_wcreate`)
leaves exactly the configuration `parse_env` produces; so after a first open
call, every sequence of later open calls made with the same configuration
string leaves the stats flag, the thread-count request and the pool cap as the
first call left them. -/
theorem config_stable_after_first_open (g : Globals) (str : Option (List Char))
    (first : OpenCall) (later : List OpenCall) :
    (parse_env (parse_env g str).g str).g = (parse_env g str).g ∧
    first.run str g = (parse_env g str).g ∧
    later.foldl (OpenCall.run str) (first.run str g) = first.run str g ∧
    (∀ c ∈ later, c.run str (first.run str g) = first.run str g) := by
  refine ⟨parse_env_twice g str, openCall_run str g first, ?_, ?_⟩
  · rw [openCall_run]
    exact later_calls_stable str later g
  · intro c _
    rw [openCall_run, openCall_run, parse_env_twice]

theorem do_option_keeps_threads (g : Globals) (tok : List Char)
    (h1 : tok ≠ "nothreads".toList) (h2 : "threads=".toList.isPrefixOf tok = false) :
    (do_option g tok).use_threads = g.use_threads := by
  simp only [do_option, strncmp_eq, h1, h2, if_false, Bool.false_eq_true]
  split_ifs <;> rfl

theorem foldl_keeps_threads (l : List (List Char)) :
    ∀ g : Globals,
    (∀ t ∈ l, t ≠ "nothreads".toList ∧ "threads=".toList.isPrefixOf t = false) →
    (l.foldl do_option g).use_threads = g.use_threads := by
  induction l with
  | nil => intro g _; rfl
  | cons t ts ih =>
    intro g h
    simp only [List.foldl_cons]
    rw [ih _ (fun u hu => h u (List.mem_cons_of_mem _ hu)),
      do_option_keeps_threads g t (h t (List.mem_cons_self _ _)).1
        (h t (List.mem_cons_self _ _)).2]

theorem foldl_threads_off (g : Globals) (pre post : List (List Char)) (tok : List Char)
    (htok : tok = "nothreads".toList ∨ tok = "threads=0".toList)
    (hpost : ∀ t ∈ post, t ≠ "nothreads".toList ∧ "threads=".toList.isPrefixOf t = false) :
    ((pre ++ tok :: post).foldl do_option g).use_threads = 0 := by
  rw [List.foldl_append, List.foldl_cons, foldl_keeps_threads post _ hpost]
  rcases htok with rfl | rfl <;> rfl

/-- C4 (counterexample): with the configuration `nothreads,threads=4` the
`nothreads` token is in the configuration, yet the pipeline `wandio_create`
builds contains the threaded buffering stage. -/
theorem wandio_create_nothreads_overridden :
    "nothreads".toList ∈ tokens "nothreads,threads=4".toList ∧
    ∃ io, (wandio_create full_build (sample_env (some "nothreads,threads=4".toList) true 0 [])
        initial_globals "trace".toList).ret = Ret.returned (some io) ∧
      Stage.thread ∈ io.stages :=
  ⟨by decide, io_t.peek (io_t.thread (io_t.peek (io_t.stdio "trace".toList))), by decide,
    by decide⟩

/-- C4 (amended): for every file whose raw stage opens, the pipeline
`wandio_create` returns is, in order, the raw stage, the inner peek stage, the
decompression stage chosen by detection (none or one), the threaded buffering
stage if and only if the thread-count request is not 0, and an outer peek stage,
which is always the outermost one; and when the tokens of the configuration fit
the option buffer and the last token that sets the thread count (the token
`nothreads` or one beginning `threads=`) is `nothreads` or `threads=0`, the
pipeline contains no threaded buffering stage. -/
theorem wandio_create_pipeline_shape (cfg : BuildConfig) (env : Env) (g : Globals)
    (filename : List Char) (hopen : env.stdio_open_ok filename = true) :
    ∃ io, (wandio_create cfg env g filename).ret = Ret.returned (some io) ∧
      io.stages = [Stage.stdio, Stage.peek]
        ++ detected_stages cfg env.peek_len env.peek_buffer
        ++ thread_stages (parse_env g env.LIBTRACEIO).g.use_threads
        ++ [Stage.peek] ∧
      (detected_stages cfg env.peek_len env.peek_buffer).length ≤ 1 ∧
      (∃ inner, io = io_t.peek inner) ∧
      (Stage.thread ∈ io.stages ↔ (parse_env g env.LIBTRACEIO).g.use_threads ≠ 0) ∧
      (∀ (s : List Char) (pre post : List (List Char)) (tok : List Char),
        env.LIBTRACEIO = some s → (∀ t ∈ tokens s, t.length ≤ 1023) →
        tokens s = pre ++ tok :: post →
        tok = "nothreads".toList ∨ tok = "threads=0".toList →
        (∀ t ∈ post, t ≠ "nothreads".toList ∧ "threads=".toList.isPrefixOf t = false) →
        Stage.thread ∉ io.stages) := by
  obtain ⟨io, hret, hst⟩ := wandio_create_stages cfg env g filename hopen
  have hmem : Stage.thread ∈ io.stages ↔ (parse_env g env.LIBTRACEIO).g.use_threads ≠ 0 := by
    rw [hst]
    unfold detected_stages thread_stages
    split_ifs <;> simp_all
  refine ⟨io, hret, hst, ?_, ?_, hmem, ?_⟩
  · unfold detected_stages
    split_ifs <;> simp
  · revert hret
    simp only [wandio_create, stdio_open, hopen, peek_open, if_true, Option.map]
    intro h
    cases hthr : (open_if ((parse_env g env.LIBTRACEIO).g.use_threads != 0) thread_open
      Call.thread_open (detect cfg env.peek_len env.peek_buffer
        (some (io_t.stdio filename).peek,
          [Call.getenv, Call.stdio_open filename, Call.peek_open] ++ [Call.wandio_peek]))).1 with
    | none => rw [hthr] at h; simp at h
    | some inner =>
      rw [hthr] at h
      refine ⟨inner, ?_⟩
      simpa using h.symm
  · intro s pre post tok hs hfit htoks htok hpost
    rw [hmem, hs, parse_env_fold g s hfit, htoks,
      foldl_threads_off g pre post tok htok hpost]
    simp

theorem wandio_create_pipeline_shape_witness :
    (sample_env (some "stats,nothreads".toList) true 10 [0x1f, 0x8b, 8]).stdio_open_ok
      "trace.gz".toList = true ∧
    ∃ io, (wandio_create full_build (sample_env (some "stats,nothreads".toList) true 10
        [0x1f, 0x8b, 8]) initial_globals "trace.gz".toList).ret = Ret.returned (some io) ∧
      io.stages = [Stage.stdio, Stage.peek, Stage.zlib, Stage.peek] := by
  refine ⟨rfl, ?_⟩
  obtain ⟨io, h, hs, _⟩ := wandio_create_pipeline_shape full_build
    (sample_env (some "stats,nothreads".toList) true 10 [0x1f, 0x8b, 8]) initial_globals
    "trace.gz".toList rfl
  refine ⟨io, h, ?_⟩
  rw [hs]
  decide

end Wandio
